import Mathlib

/-
Verification of the PHTS payroll and request-approval core.

Shallow embedding of:
  - PayrollService.updatePeriodStatus / processPeriodCalculation
    (src/backend/src/services/payroll/calculator.ts, second module)
  - calculateMonthly numeric core and resolveWorkPeriods
    (src/backend/src/services/payroll/calculator.ts, first module)
  - submitRequest / approveRequest / finalizeRequest
    (src/backend/src/services/requestService.ts)
  - createEligibility (eligibility service)
  - STEP_ROLE_MAP (src/backend/src/types/pts-request-v2.types.ts)

Dates are day numbers (Int).  Money is exact rationals (the source uses
decimal.js, an exact decimal library; its add/mul are exact and its
division is correctly rounded to 20 significant digits, which we model as
exact rational division).  Database transactions are modelled by Except:
an error result means the transaction rolled back, so no state change.
-/

namespace PHTS

/-- Period workflow statuses, from the PeriodStatus enum. -/
inductive PeriodStatus where
  | OPEN
  | WAITING_HR
  | WAITING_DIRECTOR
  | CLOSED
deriving DecidableEq, Repr

/-- Actions accepted by updatePeriodStatus. -/
inductive PeriodAction where
  | SUBMIT
  | APPROVE_HR
  | APPROVE_DIRECTOR
  | REJECT
deriving DecidableEq, Repr

/-- String name of a period status, as interpolated into error messages. -/
def PeriodStatus.name : PeriodStatus → String
  | .OPEN => "OPEN"
  | .WAITING_HR => "WAITING_HR"
  | .WAITING_DIRECTOR => "WAITING_DIRECTOR"
  | .CLOSED => "CLOSED"

/-- String name of a period action, as interpolated into error messages. -/
def PeriodAction.name : PeriodAction → String
  | .SUBMIT => "SUBMIT"
  | .APPROVE_HR => "APPROVE_HR"
  | .APPROVE_DIRECTOR => "APPROVE_DIRECTOR"
  | .REJECT => "REJECT"

/-- The error message of the final else branch of updatePeriodStatus. -/
def invalidActionMsg (a : PeriodAction) (s : PeriodStatus) : String :=
  "Invalid action '" ++ a.name ++ "' for status '" ++ s.name ++ "'"

/-- Embeds the transition logic of PayrollService.updatePeriodStatus
(calculator.ts second module, the if/else chain on action and
currentStatus).  The returned status is the one written back; an error
models the thrown exception (transaction rolled back, row unchanged). -/
def updatePeriodStatus (current : PeriodStatus) (action : PeriodAction) :
    Except String PeriodStatus :=
  if action = .SUBMIT ∧ current = .OPEN then
    .ok .WAITING_HR
  else if action = .APPROVE_HR ∧ current = .WAITING_HR then
    .ok .WAITING_DIRECTOR
  else if action = .APPROVE_DIRECTOR ∧ current = .WAITING_DIRECTOR then
    .ok .CLOSED
  else if action = .REJECT then
    .ok .OPEN
  else
    .error (invalidActionMsg action current)

/-- Per-citizen result of calculateMonthly plus calculateRetroactive, as
consumed by processPeriodCalculation.  The two calculators are
deterministic functions of the period source data (eligibilities,
movements, profiles, licenses, leaves, quotas, holidays), so a run over
unchanged source data is modelled by a fixed function from citizen id to
this record. -/
structure CalcOut where
  netPayment : ℚ
  retroTotal : ℚ
  totalDeductionDays : ℚ
  eligibleDays : ℚ
  masterRateId : Option ℤ
  rateSnapshot : ℚ
deriving DecidableEq, Repr

/-- One pts_payouts row as inserted by savePayout: calculated_amount is
the net payment and total_payable is net plus retroactive total. -/
structure Payout where
  citizen_id : ℕ
  master_rate_id : Option ℤ
  pts_rate_snapshot : ℚ
  calculated_amount : ℚ
  total_payable : ℚ
  deducted_days : ℚ
  eligible_days : ℚ
deriving DecidableEq, Repr

/-- The pts_periods columns touched by the period services. -/
structure PeriodRow where
  status : PeriodStatus
  total_amount : ℚ
  total_headcount : ℕ
  created_at : ℤ
deriving DecidableEq, Repr

/-- Database state relevant to one period: its row and its payout rows. -/
structure PeriodState where
  period : PeriodRow
  payouts : List Payout
deriving DecidableEq, Repr

/-- Loop body of processPeriodCalculation over eligible citizens:
computes the grand total and persists a payout row, accumulating period
totals, only when grandTotal is positive or netPayment is positive. -/
def processCitizenStep (calcF : ℕ → CalcOut) (acc : List Payout × ℚ × ℕ)
    (c : ℕ) : List Payout × ℚ × ℕ :=
  let r := calcF c
  let grandTotal := r.netPayment + r.retroTotal
  if grandTotal > 0 ∨ r.netPayment > 0 then
    (acc.1 ++ [⟨c, r.masterRateId, r.rateSnapshot, r.netPayment, grandTotal,
               r.totalDeductionDays, r.eligibleDays⟩],
     acc.2.1 + grandTotal, acc.2.2 + 1)
  else
    acc

/-- Embeds PayrollService.processPeriodCalculation: requires the period
to be OPEN, deletes all payouts of the period, recomputes a payout per
eligible citizen (skipping non-positive results), and updates the period
row with the new totals, headcount and created_at = NOW().  The calc
argument stands for calculateMonthly plus calculateRetroactive on the
period source data; eligibleUsers is the citizen list of the eligibility
query; now is the NOW() timestamp.  An error is a rollback. -/
def processPeriodCalculation (calcF : ℕ → CalcOut) (eligibleUsers : List ℕ)
    (now : ℤ) (st : PeriodState) : Except String PeriodState :=
  if st.period.status ≠ .OPEN then
    .error "ไม่สามารถคำนวณได้เนื่องจากงวดเดือนไม่ได้อยู่ในสถานะ OPEN"
  else
    let res := eligibleUsers.foldl (processCitizenStep calcF) ([], 0, 0)
    .ok { period := { status := st.period.status
                    , total_amount := res.2.1
                    , total_headcount := res.2.2
                    , created_at := now }
        , payouts := res.1 }

/-- Request statuses, from the RequestStatus enum in
pts-request-v2.types.ts. -/
inductive RequestStatus where
  | DRAFT
  | PENDING
  | APPROVED
  | REJECTED
  | CANCELLED
  | RETURNED
deriving DecidableEq, Repr

/-- String name of a request status, as interpolated into messages. -/
def RequestStatus.name : RequestStatus → String
  | .DRAFT => "DRAFT"
  | .PENDING => "PENDING"
  | .APPROVED => "APPROVED"
  | .REJECTED => "REJECTED"
  | .CANCELLED => "CANCELLED"
  | .RETURNED => "RETURNED"

/-- Action types of pts_request_actions rows (ActionType enum). -/
inductive ActionType where
  | SUBMIT
  | APPROVE
  | REJECT
  | RETURN
deriving DecidableEq, Repr

/-- STEP_ROLE_MAP from pts-request-v2.types.ts: role responsible for each
workflow step.  Lookup of an unmapped step yields none, matching the
undefined of the TypeScript record lookup. -/
def STEP_ROLE_MAP : ℕ → Option String
  | 1 => some "HEAD_DEPT"
  | 2 => some "PTS_OFFICER"
  | 3 => some "HEAD_HR"
  | 4 => some "DIRECTOR"
  | 5 => some "HEAD_FINANCE"
  | _ => none

/-- The columns of a pts_requests row used by the workflow services. -/
structure RequestRow where
  status : RequestStatus
  current_step : ℕ
deriving DecidableEq, Repr

/-- One pts_request_actions audit row (immutable, append only). -/
structure ActionRow where
  actor_id : ℕ
  step_no : ℕ
  action : ActionType
  comment : Option String
  has_signature : Bool
deriving DecidableEq, Repr

/-- Request plus its action log, the state a workflow transition reads
and writes inside one transaction. -/
structure RequestState where
  request : RequestRow
  actions : List ActionRow
deriving DecidableEq, Repr

/-- Embeds submitRequest (requestService.ts): the request must be in
status DRAFT, otherwise the service throws.  On success the status
becomes PENDING with current_step = 1 and a SUBMIT action row is
appended.  The ownership lookup (request_id, user_id) is outside the
model; userId is the acting owner. -/
def submitRequest (st : RequestState) (userId : ℕ) :
    Except String RequestState :=
  if st.request.status ≠ .DRAFT then
    .error ("Cannot submit request with status: " ++ st.request.status.name)
  else
    .ok { request := { status := .PENDING, current_step := 1 }
        , actions := st.actions ++ [⟨userId, 1, .SUBMIT, none, false⟩] }

/-- Embeds the private helper performApproval (requestService.ts):
appends the APPROVE action row with the signature snapshot, then either
finishes the request (next step beyond 5: status APPROVED, step 6, plus
finalization, whose outcome finResult aborts the transaction on error)
or advances current_step by one. -/
def performApproval (st : RequestState) (actorId : ℕ)
    (comment : Option String) (finResult : Except String Unit) :
    Except String RequestState :=
  let currentStep := st.request.current_step
  let nextStep := currentStep + 1
  let logged := st.actions ++ [⟨actorId, currentStep, .APPROVE, comment, true⟩]
  if nextStep > 5 then
    match finResult with
    | .error e => .error e
    | .ok _ =>
        .ok { request := { status := .APPROVED, current_step := 6 }
            , actions := logged }
  else
    .ok { request := { status := st.request.status, current_step := nextStep }
        , actions := logged }

/-- Embeds approveRequest (requestService.ts): guards in source order —
status must be PENDING, the actor role must equal
STEP_ROLE_MAP[current_step], and the approver must have a stored
signature — then performs the approval.  An error models the thrown
exception with the transaction rolled back. -/
def approveRequest (st : RequestState) (actorId : ℕ) (actorRole : String)
    (comment : Option String) (signature : Option (List ℕ))
    (finResult : Except String Unit) : Except String RequestState :=
  if st.request.status ≠ .PENDING then
    .error ("Cannot approve request with status: " ++ st.request.status.name)
  else if STEP_ROLE_MAP st.request.current_step ≠ some actorRole then
    .error ("Invalid approver role. Expected "
        ++ (STEP_ROLE_MAP st.request.current_step).getD "undefined"
        ++ ", got " ++ actorRole)
  else if signature = none then
    .error "Approver signature is required. Please set your signature before approving."
  else
    performApproval st actorId comment finResult

/-- Transaction runner for approveRequest: on error the transaction
rolls back and the request state is unchanged. -/
def applyApprove (st : RequestState) (actorId : ℕ) (actorRole : String)
    (comment : Option String) (signature : Option (List ℕ))
    (finResult : Except String Unit) : RequestState :=
  match approveRequest st actorId actorRole comment signature finResult with
  | .ok st2 => st2
  | .error _ => st

/-- One pts_employee_eligibility row.  expiry_date none is the
open-ended NULL of the schema. -/
structure EligRow where
  citizen_id : ℕ
  master_rate_id : ℕ
  request_id : ℕ
  effective_date : ℤ
  expiry_date : Option ℤ
  is_active : Bool
deriving DecidableEq, Repr

/-- A row covers a day when the day is on or after effective_date and on
or before expiry_date (a NULL expiry covers every later day). -/
def coversDay (r : EligRow) (d : ℤ) : Bool :=
  decide (r.effective_date ≤ d) &&
    (match r.expiry_date with
     | none => true
     | some e => decide (d ≤ e))

/-- Embeds createEligibility (eligibility service): one UPDATE
deactivating, and closing with expiry_date = effective_date minus one
day, every active row of the citizen whose effective_date is on or
before the new effective_date, then one INSERT of the new active
open-ended row. -/
def createEligibility (rows : List EligRow) (citizenId masterRateId : ℕ)
    (effectiveDate : ℤ) (requestId : ℕ) : List EligRow :=
  (rows.map fun r =>
    if r.citizen_id = citizenId ∧ r.is_active = true ∧
        r.effective_date ≤ effectiveDate then
      { r with is_active := false, expiry_date := some (effectiveDate - 1) }
    else r)
  ++ [{ citizen_id := citizenId
      , master_rate_id := masterRateId
      , request_id := requestId
      , effective_date := effectiveDate
      , expiry_date := none
      , is_active := true }]

/-- One pts_master_rates row as read during finalization. -/
structure MasterRate where
  rate_id : ℕ
  amount : ℚ
  is_active : Bool
  profession_code : Option String
deriving DecidableEq, Repr

/-- The pts_requests columns finalizeRequest reads.  Both columns are
nullable in the read model (requested_amount DECIMAL, effective_date
DATE). -/
structure FinRequest where
  requested_amount : Option ℚ
  effective_date : Option ℤ
deriving DecidableEq, Repr

/-- The master-rate search of finalizeRequest: first an active rate of
the requested amount narrowed by the recommended profession code when
one is present, then, if that returns nothing, any active rate of the
amount. -/
def findRateByAmount (rates : List MasterRate) (amount : ℚ)
    (professionCode : Option String) : Option MasterRate :=
  match professionCode with
  | some p =>
      match rates.find? (fun r =>
          r.amount = amount && r.is_active && r.profession_code = some p) with
      | some r => some r
      | none => rates.find? (fun r => r.amount = amount && r.is_active)
  | none => rates.find? (fun r => r.amount = amount && r.is_active)

/-- Embeds finalizeRequest (requestService.ts): runs only when
requested_amount is present (non-NULL, nonzero in the JS truthiness
test) and greater than zero; then requires effective_date, resolves a
master rate id (the recommended rate when its amount matches exactly,
else findRateByAmount), fails when none matches, and otherwise calls
createEligibility.  When requested_amount is absent, zero or negative
the whole block is skipped and the eligibility rows are returned
unchanged. -/
def finalizeRequest (rates : List MasterRate)
    (recommended : Option MasterRate) (req : FinRequest)
    (citizenId requestId : ℕ) (rows : List EligRow) :
    Except String (List EligRow) :=
  match req.requested_amount with
  | none => .ok rows
  | some amount =>
    if amount ≠ 0 ∧ amount > 0 then
      match req.effective_date with
      | none => .error "effective_date is required for finalization"
      | some effectiveDate =>
        let target : Option ℕ :=
          match recommended with
          | some rec =>
              if rec.amount = amount then some rec.rate_id
              else (findRateByAmount rates amount rec.profession_code).map
                     (fun r => r.rate_id)
          | none => (findRateByAmount rates amount none).map
                      (fun r => r.rate_id)
        match target with
        | none => .error ("ไม่พบ Master Rate ที่มียอดเงิน " ++ toString amount)
        | some rateId =>
            if rateId = 0 then
              .error "ไม่สามารถระบุ master_rate_id สำหรับการสร้างสิทธิ์ได้"
            else
              .ok (createEligibility rows citizenId rateId effectiveDate
                     requestId)
    else
      .ok rows

/-- Movement types of pts_employee_movements.  OTHER stands for any
movement_type string outside the branches of resolveWorkPeriods, which
the source ignores. -/
inductive MovementType where
  | ENTRY
  | RESIGN
  | RETIRE
  | DEATH
  | TRANSFER_OUT
  | STUDY
  | OTHER
deriving DecidableEq, Repr

/-- The exit types listed in resolveWorkPeriods. -/
def MovementType.isExit : MovementType → Bool
  | .RESIGN => true
  | .RETIRE => true
  | .DEATH => true
  | .TRANSFER_OUT => true
  | _ => false

/-- One pts_employee_movements row as read by resolveWorkPeriods. -/
structure Movement where
  effective_date : ℤ
  movement_type : MovementType
deriving DecidableEq, Repr

/-- A resolved work period: a closed day range.  The source field end is
a Lean keyword, so the embedding names it stop. -/
structure WorkPeriod where
  start : ℤ
  stop : ℤ
deriving DecidableEq, Repr

/-- First loop of resolveWorkPeriods: replay the movements strictly
before month start to establish the active flag (and the study remark)
as of month start. -/
def replayBeforeMonth (monthStart : ℤ) (ms : List Movement) :
    Bool × String :=
  ms.foldl (fun acc m =>
    if m.effective_date < monthStart then
      match m.movement_type with
      | .ENTRY => (true, acc.2)
      | .STUDY => (false, "ลาศึกษาต่อ")
      | t => if t.isExit then (false, acc.2) else acc
    else acc) (false, "")

/-- Second loop of resolveWorkPeriods: scan the movements, skipping
those outside the month; STUDY terminates the scan (no further periods,
study remark); ENTRY while inactive opens a period; an exit type while
active closes the open period at the day before the event, clipped to
the month, dropping it when it would end before month start.  When the
scan ends still active, the open period is closed at month end. -/
def scanMonth (monthStart monthEnd : ℤ) :
    List Movement → Bool → Option ℤ → String → List WorkPeriod × String
  | [], active, cs, remark =>
      match active, cs with
      | true, some s => ([⟨s, monthEnd⟩], remark)
      | _, _ => ([], remark)
  | m :: rest, active, cs, remark =>
      if m.effective_date < monthStart ∨ m.effective_date > monthEnd then
        scanMonth monthStart monthEnd rest active cs remark
      else
        match m.movement_type with
        | .STUDY => ([], "ลาศึกษาต่อ")
        | .ENTRY =>
            if active = false then
              scanMonth monthStart monthEnd rest true
                (some (if m.effective_date < monthStart then monthStart
                       else m.effective_date)) remark
            else
              scanMonth monthStart monthEnd rest active cs remark
        | t =>
            if t.isExit then
              let endDay := m.effective_date - 1
              let pushed : List WorkPeriod :=
                match active, cs with
                | true, some s =>
                    if endDay ≥ monthStart then
                      [⟨s, if endDay > monthEnd then monthEnd else endDay⟩]
                    else []
                | _, _ => []
              let r := scanMonth monthStart monthEnd rest false none remark
              (pushed ++ r.1, r.2)
            else
              scanMonth monthStart monthEnd rest active cs remark

/-- Embeds resolveWorkPeriods (calculator.ts): movements dated after
month end are filtered out; with no relevant movement at all the whole
month is one period; otherwise the two loops above run, starting the
scan with an open period at month start when active there. -/
def resolveWorkPeriods (movements : List Movement)
    (monthStart monthEnd : ℤ) : List WorkPeriod × String :=
  let relevant := movements.filter (fun m => m.effective_date ≤ monthEnd)
  if relevant.isEmpty then
    ([⟨monthStart, monthEnd⟩], "")
  else
    let init := replayBeforeMonth monthStart relevant
    scanMonth monthStart monthEnd relevant init.1
      (if init.1 then some monthStart else none) init.2

/-- One joined eligibility row of the calculateMonthly query: the
eligibility interval with the master rate amount and id. -/
structure MonthElig where
  effective_date : ℤ
  expiry_date : Option ℤ
  rate : ℚ
  rate_id : ℤ
deriving DecidableEq, Repr

/-- The day test of the activeElig find: effective_date ≤ d ≤
expiry_date, where a NULL expiry is replaced in the source by the year
9999 sentinel, covering every later day. -/
def eligCoversDay (e : MonthElig) (d : ℤ) : Bool :=
  decide (e.effective_date ≤ d) &&
    (match e.expiry_date with
     | none => true
     | some x => decide (d ≤ x))

/-- The eligibilities.find of the day loop: first row covering the day,
in the effective_date ascending order of the query. -/
def activeEligOn (es : List MonthElig) (d : ℤ) : Option MonthElig :=
  es.find? (fun e => eligCoversDay e d)

/-- Running accumulator of the day loop of calculateMonthly. -/
structure MonthlyAcc where
  totalPayment : ℚ
  validLicenseDays : ℕ
  totalDeductionDays : ℚ
  daysCounted : ℚ
  lastRateSnapshot : ℚ
  lastMasterRateId : Option ℤ
deriving DecidableEq, Repr

/-- One day of the calculateMonthly loop: resolve the active rate,
record the last seen rate snapshot and id, count license validity, look
up the deduction weight, floor the eligible weight at zero, accumulate
deduction and eligible day counts, and add rate divided by days in
month times the eligible weight to the running total.  licenseOk is
checkLicense on the day and ded the deduction map lookup (0 when the
day is absent from the map). -/
def dayStep (es : List MonthElig) (licenseOk : ℤ → Bool) (ded : ℤ → ℚ)
    (daysInMonth : ℕ) (acc : MonthlyAcc) (d : ℤ) : MonthlyAcc :=
  let activeElig := activeEligOn es d
  let currentRate : ℚ := match activeElig with
    | some e => e.rate
    | none => 0
  let lastSnap := match activeElig with
    | some e => e.rate
    | none => acc.lastRateSnapshot
  let lastId := match activeElig with
    | some e => some e.rate_id
    | none => acc.lastMasterRateId
  let hasLicense := licenseOk d
  let validDays := if hasLicense then acc.validLicenseDays + 1
                   else acc.validLicenseDays
  let deductionWeight := ded d
  let eligibleWeight0 : ℚ := (if hasLicense then 1 else 0) - deductionWeight
  let eligibleWeight := if eligibleWeight0 < 0 then 0 else eligibleWeight0
  let totalDed := if deductionWeight > 0 then
                    acc.totalDeductionDays + deductionWeight
                  else acc.totalDeductionDays
  let counted := if eligibleWeight > 0 then acc.daysCounted + eligibleWeight
                 else acc.daysCounted
  let dailyRate := currentRate / (daysInMonth : ℚ)
  { totalPayment := acc.totalPayment + dailyRate * eligibleWeight
  , validLicenseDays := validDays
  , totalDeductionDays := totalDed
  , daysCounted := counted
  , lastRateSnapshot := lastSnap
  , lastMasterRateId := lastId }

/-- The closed day range [a, b] iterated by the inner for loop. -/
def dayList (a b : ℤ) : List ℤ :=
  (List.range (b + 1 - a).toNat).map (fun i => a + i)

/-- Half-up rounding to two decimal places: the toDecimalPlaces(2,
ROUND_HALF_UP) of decimal.js, which rounds halves away from zero. -/
def roundHalfUp2 (q : ℚ) : ℚ :=
  if q ≥ 0 then ((⌊q * 100 + 1 / 2⌋ : ℤ) : ℚ) / 100
  else -(((⌊-q * 100 + 1 / 2⌋ : ℤ) : ℚ) / 100)

/-- Result record of calculateMonthly (net payment and counters). -/
structure MonthlyResult where
  netPayment : ℚ
  totalDeductionDays : ℚ
  validLicenseDays : ℕ
  eligibleDays : ℚ
  masterRateId : Option ℤ
  rateSnapshot : ℚ
deriving DecidableEq, Repr

/-- Embeds the numeric core of calculateMonthly (calculator.ts lines
139 to 188): the day loop over every resolved work period, followed by
the final half-up rounding of the accumulated total to two decimal
places.  The arithmetic is exact rational arithmetic, modelling the
decimal.js Decimal values of the source. -/
def calculateMonthlyCore (periods : List WorkPeriod) (es : List MonthElig)
    (licenseOk : ℤ → Bool) (ded : ℤ → ℚ) (daysInMonth : ℕ) :
    MonthlyResult :=
  let init : MonthlyAcc := ⟨0, 0, 0, 0, 0, none⟩
  let acc := periods.foldl
    (fun a p => (dayList p.start p.stop).foldl
      (dayStep es licenseOk ded daysInMonth) a) init
  { netPayment := roundHalfUp2 acc.totalPayment
  , totalDeductionDays := acc.totalDeductionDays
  , validLicenseDays := acc.validLicenseDays
  , eligibleDays := acc.daysCounted
  , masterRateId := acc.lastMasterRateId
  , rateSnapshot := acc.lastRateSnapshot }

/-- The rate in effect on a day (0 when no eligibility covers it). -/
def dayRate (es : List MonthElig) (d : ℤ) : ℚ :=
  match activeEligOn es d with
  | some e => e.rate
  | none => 0

/-- The eligible weight of a day: license indicator minus deduction
weight, floored at zero. -/
def dayEligibleWeight (licenseOk : ℤ → Bool) (ded : ℤ → ℚ) (d : ℤ) : ℚ :=
  let w : ℚ := (if licenseOk d then 1 else 0) - ded d
  if w < 0 then 0 else w

/-- The payment contribution of one day: (rate divided by days in
month) times the eligible weight of the day. -/
def dailyContribution (es : List MonthElig) (licenseOk : ℤ → Bool)
    (ded : ℤ → ℚ) (daysInMonth : ℕ) (d : ℤ) : ℚ :=
  dayRate es d / (daysInMonth : ℚ) * dayEligibleWeight licenseOk ded d

/-- The payout rows the citizen loop of processPeriodCalculation
persists: one row per eligible citizen, in order, kept exactly when the
grand total or the net payment is strictly positive. -/
def persistedPayouts (calcF : ℕ → CalcOut) : List ℕ → List Payout
  | [] => []
  | c :: us =>
      let r := calcF c
      let grandTotal := r.netPayment + r.retroTotal
      if grandTotal > 0 ∨ r.netPayment > 0 then
        ⟨c, r.masterRateId, r.rateSnapshot, r.netPayment, grandTotal,
         r.totalDeductionDays, r.eligibleDays⟩ :: persistedPayouts calcF us
      else
        persistedPayouts calcF us

/-- Claim C1, counterexample: updatePeriodStatus accepts REJECT from a
CLOSED period (reopening it to OPEN) instead of failing — the REJECT
branch of the source has no status guard, so the claim that REJECT is
accepted only from WAITING_HR or WAITING_DIRECTOR is false. -/
theorem updatePeriodStatus_reject_closed_counterexample :
    updatePeriodStatus PeriodStatus.CLOSED PeriodAction.REJECT =
      Except.ok PeriodStatus.OPEN := rfl

/-- Claim C1 (amended): REJECT is accepted from every period status,
always resulting in OPEN; every other action applied outside its
designated status fails with an error naming the action and the current
status, leaving the period status unchanged (the error models the
rolled-back transaction). -/
theorem updatePeriodStatus_amended (s : PeriodStatus) (a : PeriodAction) :
    updatePeriodStatus s PeriodAction.REJECT = Except.ok PeriodStatus.OPEN ∧
    (a ≠ PeriodAction.REJECT →
      ¬(a = PeriodAction.SUBMIT ∧ s = PeriodStatus.OPEN) →
      ¬(a = PeriodAction.APPROVE_HR ∧ s = PeriodStatus.WAITING_HR) →
      ¬(a = PeriodAction.APPROVE_DIRECTOR ∧ s = PeriodStatus.WAITING_DIRECTOR) →
      updatePeriodStatus s a = Except.error (invalidActionMsg a s)) := by
  cases s <;> cases a <;> exact ⟨rfl, by intro h1 h2 h3 h4; first | rfl | simp_all⟩

/-- Claim C1 witness: a CLOSED period is reopened by REJECT, and SUBMIT
from CLOSED fails with the explicit pair-naming error. -/
theorem updatePeriodStatus_amended_witness :
    updatePeriodStatus PeriodStatus.CLOSED PeriodAction.REJECT =
      Except.ok PeriodStatus.OPEN ∧
    updatePeriodStatus PeriodStatus.CLOSED PeriodAction.SUBMIT =
      Except.error (invalidActionMsg PeriodAction.SUBMIT PeriodStatus.CLOSED) :=
  ⟨(updatePeriodStatus_amended PeriodStatus.CLOSED PeriodAction.SUBMIT).1,
   (updatePeriodStatus_amended PeriodStatus.CLOSED PeriodAction.SUBMIT).2
     (by decide) (by decide) (by decide) (by decide)⟩

/-- Claim C2: the claim is right and the code is wrong.  The repository
schema documentation (init_requests.sql, workflow state machine section)
states that a RETURNED request can be re-submitted, but submitRequest
only accepts status DRAFT, so submitting a RETURNED request (here at
current_step 2 after a return from step 3) throws instead of moving the
request to PENDING at step 1. -/
theorem submitRequest_returned_fails :
    submitRequest { request := { status := RequestStatus.RETURNED
                               , current_step := 2 }
                  , actions := [] } 1 =
      Except.error ("Cannot submit request with status: "
        ++ RequestStatus.RETURNED.name) := rfl

/-- Claim C7: approveRequest on a request whose status is not PENDING,
or by an actor whose role is not STEP_ROLE_MAP[current_step], always
fails — for status mismatches with the status-naming error, for role
mismatches with the error naming the expected and the actual role — and
the transaction runner leaves the request row, its status, its
current_step and its action log unchanged. -/
theorem approveRequest_guards (st : RequestState) (actorId : ℕ)
    (actorRole : String) (comment : Option String)
    (signature : Option (List ℕ)) (finResult : Except String Unit) :
    (st.request.status ≠ RequestStatus.PENDING →
      approveRequest st actorId actorRole comment signature finResult =
        Except.error ("Cannot approve request with status: "
          ++ st.request.status.name) ∧
      applyApprove st actorId actorRole comment signature finResult = st) ∧
    (st.request.status = RequestStatus.PENDING →
     STEP_ROLE_MAP st.request.current_step ≠ some actorRole →
      approveRequest st actorId actorRole comment signature finResult =
        Except.error ("Invalid approver role. Expected "
          ++ (STEP_ROLE_MAP st.request.current_step).getD "undefined"
          ++ ", got " ++ actorRole) ∧
      applyApprove st actorId actorRole comment signature finResult = st) := by
  constructor
  · intro h
    have h1 : approveRequest st actorId actorRole comment signature finResult =
        Except.error ("Cannot approve request with status: "
          ++ st.request.status.name) := by
      unfold approveRequest
      rw [if_pos h]
    exact ⟨h1, by unfold applyApprove; rw [h1]⟩
  · intro h h2
    have h1 : approveRequest st actorId actorRole comment signature finResult =
        Except.error ("Invalid approver role. Expected "
          ++ (STEP_ROLE_MAP st.request.current_step).getD "undefined"
          ++ ", got " ++ actorRole) := by
      unfold approveRequest
      rw [if_neg (by simp [h]), if_pos h2]
    exact ⟨h1, by unfold applyApprove; rw [h1]⟩

/-- Claim C7 witness: approving a REJECTED request fails and changes
nothing, and a DIRECTOR approving a request pending at step 2 gets the
error naming PTS_OFFICER as expected role, again changing nothing. -/
theorem approveRequest_guards_witness :
    (approveRequest { request := { status := RequestStatus.REJECTED
                                 , current_step := 1 }
                    , actions := [] } 1 "HEAD_DEPT" none none (Except.ok ()) =
       Except.error ("Cannot approve request with status: "
         ++ RequestStatus.REJECTED.name) ∧
     applyApprove { request := { status := RequestStatus.REJECTED
                               , current_step := 1 }
                  , actions := [] } 1 "HEAD_DEPT" none none (Except.ok ()) =
       { request := { status := RequestStatus.REJECTED, current_step := 1 }
       , actions := [] }) ∧
    (approveRequest { request := { status := RequestStatus.PENDING
                                 , current_step := 2 }
                    , actions := [] } 1 "DIRECTOR" none none (Except.ok ()) =
       Except.error ("Invalid approver role. Expected "
         ++ (STEP_ROLE_MAP 2).getD "undefined" ++ ", got " ++ "DIRECTOR") ∧
     applyApprove { request := { status := RequestStatus.PENDING
                               , current_step := 2 }
                  , actions := [] } 1 "DIRECTOR" none none (Except.ok ()) =
       { request := { status := RequestStatus.PENDING, current_step := 2 }
       , actions := [] }) :=
  ⟨(approveRequest_guards
      { request := { status := RequestStatus.REJECTED, current_step := 1 }
      , actions := [] } 1 "HEAD_DEPT" none none (Except.ok ())).1 (by decide),
   (approveRequest_guards
      { request := { status := RequestStatus.PENDING, current_step := 2 }
      , actions := [] } 1 "DIRECTOR" none none (Except.ok ())).2 rfl (by decide)⟩

/-- Claim C10: every successful run of processPeriodCalculation writes
created_at = NOW() on the period row (alongside the new totals), so the
original creation timestamp of the period is not preserved; the run
succeeds from any OPEN period regardless of its stored created_at. -/
theorem processPeriodCalculation_overwrites_created_at
    (calcF : ℕ → CalcOut) (users : List ℕ) (now : ℤ) (st : PeriodState)
    (h : st.period.status = PeriodStatus.OPEN) :
    ∃ st2, processPeriodCalculation calcF users now st = Except.ok st2 ∧
      st2.period.created_at = now := by
  unfold processPeriodCalculation
  rw [if_neg (by simp [h])]
  exact ⟨_, rfl, rfl⟩

/-- Claim C10 witness: a concrete OPEN period created at time 5 has
created_at 42 after a recalculation run at time 42. -/
theorem processPeriodCalculation_overwrites_created_at_witness :
    ∃ st2, processPeriodCalculation
        (fun _ => { netPayment := 0, retroTotal := 0, totalDeductionDays := 0
                  , eligibleDays := 0, masterRateId := none, rateSnapshot := 0 })
        [] 42
        { period := { status := PeriodStatus.OPEN, total_amount := 9
                    , total_headcount := 3, created_at := 5 }
        , payouts := [] } = Except.ok st2 ∧
      st2.period.created_at = 42 :=
  processPeriodCalculation_overwrites_created_at _ _ _ _ rfl

/-- Claim C6: re-running processPeriodCalculation on the same OPEN
period with unchanged source data (here: the same per-citizen
calculation function and the same eligible citizen list, both of which
are determined by the source tables) reproduces the payout rows of the
first run exactly — same per-citizen amounts, deducted and eligible day
counts, headcount, and period total.  The first run leaves the period
OPEN, so the re-run succeeds. -/
theorem processPeriodCalculation_idempotent (calcF : ℕ → CalcOut)
    (users : List ℕ) (now now2 : ℤ) (st st1 : PeriodState)
    (h : processPeriodCalculation calcF users now st = Except.ok st1) :
    ∃ st2, processPeriodCalculation calcF users now2 st1 = Except.ok st2 ∧
      st2.payouts = st1.payouts ∧
      st2.period.total_amount = st1.period.total_amount ∧
      st2.period.total_headcount = st1.period.total_headcount := by
  by_cases hs : st.period.status = PeriodStatus.OPEN
  · have key : processPeriodCalculation calcF users now st =
        Except.ok
          { period := { status := st.period.status
                      , total_amount :=
                          (users.foldl (processCitizenStep calcF) ([], 0, 0)).2.1
                      , total_headcount :=
                          (users.foldl (processCitizenStep calcF) ([], 0, 0)).2.2
                      , created_at := now }
          , payouts := (users.foldl (processCitizenStep calcF) ([], 0, 0)).1 } := by
      unfold processPeriodCalculation
      rw [if_neg (by simp [hs])]
    have hst1 := Except.ok.inj (key.symm.trans h)
    subst hst1
    refine ⟨{ period := { status := st.period.status
                        , total_amount :=
                            (users.foldl (processCitizenStep calcF) ([], 0, 0)).2.1
                        , total_headcount :=
                            (users.foldl (processCitizenStep calcF) ([], 0, 0)).2.2
                        , created_at := now2 }
            , payouts := (users.foldl (processCitizenStep calcF) ([], 0, 0)).1 },
        ?_, rfl, rfl, rfl⟩
    unfold processPeriodCalculation
    rw [if_neg (by simp [hs])]
  · exfalso
    unfold processPeriodCalculation at h
    rw [if_pos (by simp [hs])] at h
    exact Except.noConfusion h

/-- Claim C6 witness: one eligible citizen with a positive net payment;
the second run reproduces the payout row, total and headcount of the
first. -/
theorem processPeriodCalculation_idempotent_witness :
    ∃ st2, processPeriodCalculation
        (fun _ => { netPayment := 1, retroTotal := 0, totalDeductionDays := 0
                  , eligibleDays := 30, masterRateId := some 2, rateSnapshot := 1 })
        [5] 9
        { period := { status := PeriodStatus.OPEN, total_amount := 1
                    , total_headcount := 1, created_at := 3 }
        , payouts := [{ citizen_id := 5, master_rate_id := some 2
                      , pts_rate_snapshot := 1, calculated_amount := 1
                      , total_payable := 1, deducted_days := 0
                      , eligible_days := 30 }] } = Except.ok st2 ∧
      st2.payouts = [{ citizen_id := 5, master_rate_id := some 2
                     , pts_rate_snapshot := 1, calculated_amount := 1
                     , total_payable := 1, deducted_days := 0
                     , eligible_days := 30 }] ∧
      st2.period.total_amount = 1 ∧
      st2.period.total_headcount = 1 :=
  processPeriodCalculation_idempotent
    (fun _ => { netPayment := 1, retroTotal := 0, totalDeductionDays := 0
              , eligibleDays := 30, masterRateId := some 2, rateSnapshot := 1 })
    [5] 3 9
    { period := { status := PeriodStatus.OPEN, total_amount := 0
                , total_headcount := 0, created_at := 0 }
    , payouts := [] }
    { period := { status := PeriodStatus.OPEN, total_amount := 1
                , total_headcount := 1, created_at := 3 }
    , payouts := [{ citizen_id := 5, master_rate_id := some 2
                  , pts_rate_snapshot := 1, calculated_amount := 1
                  , total_payable := 1, deducted_days := 0
                  , eligible_days := 30 }] }
    (by norm_num [processPeriodCalculation, processCitizenStep])

/-- Helper: the citizen fold of processPeriodCalculation appends
exactly the persisted payouts and adds their total and count to the
accumulator. -/
theorem foldl_processCitizenStep (calcF : ℕ → CalcOut) (users : List ℕ) :
    ∀ acc : List Payout × ℚ × ℕ,
    users.foldl (processCitizenStep calcF) acc =
      (acc.1 ++ persistedPayouts calcF users,
       acc.2.1 + ((persistedPayouts calcF users).map Payout.total_payable).sum,
       acc.2.2 + (persistedPayouts calcF users).length) := by
  induction users with
  | nil => intro acc; simp [persistedPayouts]
  | cons c us ih =>
      intro acc
      rw [List.foldl_cons, ih]
      by_cases hc : (calcF c).netPayment + (calcF c).retroTotal > 0 ∨
          (calcF c).netPayment > 0
      · simp only [processCitizenStep, persistedPayouts, if_pos hc,
          List.map_cons, List.sum_cons, List.length_cons, Prod.mk.injEq]
        refine ⟨by simp, by ring, by omega⟩
      · simp only [processCitizenStep, persistedPayouts, if_neg hc]

/-- Helper: membership in the persisted payout list characterised by
eligibility and strict positivity. -/
theorem mem_persistedPayouts (calcF : ℕ → CalcOut) (users : List ℕ)
    (p : Payout) :
    p ∈ persistedPayouts calcF users ↔
      ∃ c ∈ users, ((calcF c).netPayment + (calcF c).retroTotal > 0 ∨
          (calcF c).netPayment > 0) ∧
        p = ⟨c, (calcF c).masterRateId, (calcF c).rateSnapshot,
             (calcF c).netPayment,
             (calcF c).netPayment + (calcF c).retroTotal,
             (calcF c).totalDeductionDays, (calcF c).eligibleDays⟩ := by
  induction users with
  | nil => simp [persistedPayouts]
  | cons c us ih =>
      by_cases hc : (calcF c).netPayment + (calcF c).retroTotal > 0 ∨
          (calcF c).netPayment > 0
      · simp only [persistedPayouts, if_pos hc, List.mem_cons, ih]
        constructor
        · rintro (rfl | ⟨c2, hmem, hpos, rfl⟩)
          · exact ⟨c, Or.inl rfl, hc, rfl⟩
          · exact ⟨c2, Or.inr hmem, hpos, rfl⟩
        · rintro ⟨c2, (rfl | h2), hpos, rfl⟩
          · exact Or.inl rfl
          · exact Or.inr ⟨c2, h2, hpos, rfl⟩
      · simp only [persistedPayouts, if_neg hc, List.mem_cons, ih]
        constructor
        · rintro ⟨c2, hmem, hpos, rfl⟩
          exact ⟨c2, Or.inr hmem, hpos, rfl⟩
        · rintro ⟨c2, (rfl | h2), hpos, rfl⟩
          · exact absurd hpos hc
          · exact ⟨c2, h2, hpos, rfl⟩

/-- Claim C3, counterexample: an OPEN period with one eligible citizen
whose net payment is 0 and retroactive total is -5.  The grand total -5
is nonzero, so the claim requires a persisted payout row, but the run
persists none (the source keeps a row only when grand total or net
payment is strictly positive). -/
theorem processPeriodCalculation_zero_row_counterexample :
    processPeriodCalculation
        (fun _ => { netPayment := 0, retroTotal := -5, totalDeductionDays := 0
                  , eligibleDays := 0, masterRateId := none, rateSnapshot := 0 })
        [7] 0
        { period := { status := PeriodStatus.OPEN, total_amount := 0
                    , total_headcount := 0, created_at := 0 }
        , payouts := [] } =
      Except.ok { period := { status := PeriodStatus.OPEN, total_amount := 0
                            , total_headcount := 0, created_at := 0 }
                , payouts := [] } ∧
    ((0 : ℚ) + -5 ≠ 0) := by
  constructor
  · norm_num [processPeriodCalculation, processCitizenStep]
  · norm_num

/-- Claim C3 (amended): during processPeriodCalculation on an OPEN
period, a payout row exists for a citizen if and only if the citizen is
eligible and the net payment or the grand total (net plus retro) is
strictly positive — the source condition is grandTotal greater than 0 or
netPayment greater than 0, not nonzero, so a citizen whose only amount
is a negative retroactive total is skipped like a zero row — and the
period totals accumulate exactly over the persisted rows. -/
theorem processPeriodCalculation_persists_iff_positive
    (calcF : ℕ → CalcOut) (users : List ℕ) (now : ℤ) (st : PeriodState)
    (h : st.period.status = PeriodStatus.OPEN) :
    ∃ st2, processPeriodCalculation calcF users now st = Except.ok st2 ∧
      (∀ c, (∃ p ∈ st2.payouts, p.citizen_id = c) ↔
        (c ∈ users ∧ ((calcF c).netPayment + (calcF c).retroTotal > 0 ∨
            (calcF c).netPayment > 0))) ∧
      st2.period.total_amount = (st2.payouts.map Payout.total_payable).sum ∧
      st2.period.total_headcount = st2.payouts.length := by
  have hfold := foldl_processCitizenStep calcF users ([], 0, 0)
  refine ⟨{ period := { status := st.period.status
                      , total_amount :=
                          (users.foldl (processCitizenStep calcF) ([], 0, 0)).2.1
                      , total_headcount :=
                          (users.foldl (processCitizenStep calcF) ([], 0, 0)).2.2
                      , created_at := now }
          , payouts := (users.foldl (processCitizenStep calcF) ([], 0, 0)).1 },
      ?_, ?_, ?_, ?_⟩
  · unfold processPeriodCalculation
    rw [if_neg (by simp [h])]
  · intro c
    constructor
    · rintro ⟨p, hp, rfl⟩
      rw [hfold] at hp
      simp only [List.nil_append] at hp
      obtain ⟨c2, hmem, hpos, rfl⟩ := (mem_persistedPayouts calcF users p).mp hp
      exact ⟨hmem, hpos⟩
    · rintro ⟨hmem, hpos⟩
      refine ⟨⟨c, (calcF c).masterRateId, (calcF c).rateSnapshot,
               (calcF c).netPayment,
               (calcF c).netPayment + (calcF c).retroTotal,
               (calcF c).totalDeductionDays, (calcF c).eligibleDays⟩, ?_, rfl⟩
      rw [hfold]
      simp only [List.nil_append]
      exact (mem_persistedPayouts calcF users _).mpr ⟨c, hmem, hpos, rfl⟩
  · rw [hfold]
    simp
  · rw [hfold]
    simp

/-- Claim C3 witness: two eligible citizens, one with positive net
payment and one with a negative retroactive total only; exactly the
first is persisted and the totals match the single persisted row. -/
theorem processPeriodCalculation_persists_iff_positive_witness :
    ∃ st2, processPeriodCalculation
        (fun c => if c = 1
          then { netPayment := (2 : ℚ), retroTotal := 0, totalDeductionDays := 0
               , eligibleDays := 30, masterRateId := some 4, rateSnapshot := 2 }
          else { netPayment := 0, retroTotal := -5, totalDeductionDays := 0
               , eligibleDays := 0, masterRateId := none, rateSnapshot := 0 })
        [1, 7] 11
        { period := { status := PeriodStatus.OPEN, total_amount := 0
                    , total_headcount := 0, created_at := 0 }
        , payouts := [] } = Except.ok st2 ∧
      (∀ c, (∃ p ∈ st2.payouts, p.citizen_id = c) ↔
        (c ∈ [1, 7] ∧
          (((if c = 1
              then { netPayment := (2 : ℚ), retroTotal := 0, totalDeductionDays := 0
                   , eligibleDays := 30, masterRateId := some 4, rateSnapshot := 2 }
              else { netPayment := 0, retroTotal := -5, totalDeductionDays := 0
                   , eligibleDays := 0, masterRateId := none
                   , rateSnapshot := 0 } : CalcOut)).netPayment +
            ((if c = 1
              then { netPayment := (2 : ℚ), retroTotal := 0, totalDeductionDays := 0
                   , eligibleDays := 30, masterRateId := some 4, rateSnapshot := 2 }
              else { netPayment := 0, retroTotal := -5, totalDeductionDays := 0
                   , eligibleDays := 0, masterRateId := none
                   , rateSnapshot := 0 } : CalcOut)).retroTotal > 0 ∨
           ((if c = 1
              then { netPayment := (2 : ℚ), retroTotal := 0, totalDeductionDays := 0
                   , eligibleDays := 30, masterRateId := some 4, rateSnapshot := 2 }
              else { netPayment := 0, retroTotal := -5, totalDeductionDays := 0
                   , eligibleDays := 0, masterRateId := none
                   , rateSnapshot := 0 } : CalcOut)).netPayment > 0))) ∧
      st2.period.total_amount = (st2.payouts.map Payout.total_payable).sum ∧
      st2.period.total_headcount = st2.payouts.length :=
  processPeriodCalculation_persists_iff_positive
    (fun c => if c = 1
      then { netPayment := (2 : ℚ), retroTotal := 0, totalDeductionDays := 0
           , eligibleDays := 30, masterRateId := some 4, rateSnapshot := 2 }
      else { netPayment := 0, retroTotal := -5, totalDeductionDays := 0
           , eligibleDays := 0, masterRateId := none, rateSnapshot := 0 })
    [1, 7] 11
    { period := { status := PeriodStatus.OPEN, total_amount := 0
                , total_headcount := 0, created_at := 0 }
    , payouts := [] }
    rfl

/-- Claim C5, counterexample: a citizen has an active open-ended
eligibility effective on day 10; a new eligibility is created with the
earlier effective day 5.  The UPDATE of the source only touches active
rows with effective_date on or before the new effective_date, so the
day-10 row stays active, and after the call two active rows of the same
citizen cover day 10 — the claim that every overlapping active interval
is closed regardless of its effective_date is false. -/
theorem createEligibility_two_active_counterexample :
    ((createEligibility
        [{ citizen_id := 1, master_rate_id := 1, request_id := 1
         , effective_date := 10, expiry_date := none, is_active := true }]
        1 2 5 2).filter
      (fun r => r.is_active && coversDay r 10 && decide (r.citizen_id = 1))).length
      = 2 := by decide

/-- Claim C5 (amended): createEligibility closes (deactivates and sets
expiry_date to the new effective_date minus one day) exactly the active
rows of the citizen whose effective_date is on or before the new
effective_date.  Hence, provided every pre-existing active row of the
citizen has effective_date on or before the new effective_date, after
the call the newly inserted row is the only active row of that citizen,
so at most one active row covers any timestamp.  An active row with a
later effective_date would survive and break the invariant. -/
theorem createEligibility_unique_active (rows : List EligRow)
    (citizenId masterRateId : ℕ) (effectiveDate : ℤ) (requestId : ℕ)
    (h : ∀ r ∈ rows, r.citizen_id = citizenId → r.is_active = true →
           r.effective_date ≤ effectiveDate) :
    (createEligibility rows citizenId masterRateId effectiveDate
        requestId).filter
      (fun r => decide (r.citizen_id = citizenId) && r.is_active) =
    [{ citizen_id := citizenId, master_rate_id := masterRateId
     , request_id := requestId, effective_date := effectiveDate
     , expiry_date := none, is_active := true }] := by
  unfold createEligibility
  rw [List.filter_append]
  have h1 : (rows.map fun r =>
      if r.citizen_id = citizenId ∧ r.is_active = true ∧
          r.effective_date ≤ effectiveDate then
        { r with is_active := false
               , expiry_date := some (effectiveDate - 1) }
      else r).filter
      (fun r => decide (r.citizen_id = citizenId) && r.is_active) = [] := by
    rw [List.filter_eq_nil_iff]
    intro r hr
    obtain ⟨r0, hr0, rfl⟩ := List.mem_map.mp hr
    by_cases hc : r0.citizen_id = citizenId ∧ r0.is_active = true ∧
        r0.effective_date ≤ effectiveDate
    · rw [if_pos hc]
      simp
    · rw [if_neg hc]
      simp only [Bool.and_eq_true, decide_eq_true_eq]
      rintro ⟨hcid, hact⟩
      exact hc ⟨hcid, hact, h r0 hr0 hcid hact⟩
  rw [h1]
  simp

/-- Claim C5 witness: the existing active row is effective on day 3, the
new eligibility on day 5; afterwards only the new row is active for the
citizen. -/
theorem createEligibility_unique_active_witness :
    (createEligibility
        [{ citizen_id := 1, master_rate_id := 1, request_id := 1
         , effective_date := 3, expiry_date := none, is_active := true }]
        1 2 5 2).filter
      (fun r => decide (r.citizen_id = 1) && r.is_active) =
    [{ citizen_id := 1, master_rate_id := 2, request_id := 2
     , effective_date := 5, expiry_date := none, is_active := true }] :=
  createEligibility_unique_active _ 1 2 5 2 (by decide)

/-- Claim C4, counterexample: finalizing a request whose
requested_amount is 0 completes silently — Except.ok with the
eligibility rows unchanged — instead of failing with an explicit error:
the source wraps the whole finalization body in a truthiness-and-
positivity test and has no else branch. -/
theorem finalizeRequest_zero_amount_counterexample :
    finalizeRequest [] none
      { requested_amount := some 0, effective_date := some 100 } 1 1 [] =
      Except.ok [] := by
  norm_num [finalizeRequest]

/-- Claim C4 (amended): when requested_amount is absent, zero or
negative, finalizeRequest completes silently without creating any
eligibility (the rows come back unchanged); only when requested_amount
is positive does it fail loudly — with the explicit missing-date error
when effective_date is absent, and with the explicit no-matching-rate
error when neither the recommended rate nor the active master rate
catalog matches the amount. -/
theorem finalizeRequest_amended (rates : List MasterRate)
    (recommended : Option MasterRate) (req : FinRequest)
    (citizenId requestId : ℕ) (rows : List EligRow) (a : ℚ) (d : ℤ) :
    (req.requested_amount = none →
      finalizeRequest rates recommended req citizenId requestId rows =
        Except.ok rows) ∧
    (req.requested_amount = some a → a ≤ 0 →
      finalizeRequest rates recommended req citizenId requestId rows =
        Except.ok rows) ∧
    (req.requested_amount = some a → 0 < a → req.effective_date = none →
      finalizeRequest rates recommended req citizenId requestId rows =
        Except.error "effective_date is required for finalization") ∧
    (req.requested_amount = some a → 0 < a → req.effective_date = some d →
     (∀ rec, recommended = some rec → rec.amount ≠ a ∧
        findRateByAmount rates a rec.profession_code = none) →
     (recommended = none → findRateByAmount rates a none = none) →
      finalizeRequest rates recommended req citizenId requestId rows =
        Except.error ("ไม่พบ Master Rate ที่มียอดเงิน " ++ toString a)) := by
  refine ⟨?_, ?_, ?_, ?_⟩
  · intro h
    simp only [finalizeRequest, h]
  · intro h ha
    simp only [finalizeRequest, h]
    rw [if_neg]
    rintro ⟨-, ha2⟩
    exact absurd ha2 (not_lt.mpr ha)
  · intro h ha hd
    simp only [finalizeRequest, h]
    rw [if_pos ⟨ne_of_gt ha, ha⟩]
    simp only [hd]
  · intro h ha hd hrec hnone
    simp only [finalizeRequest, h]
    rw [if_pos ⟨ne_of_gt ha, ha⟩]
    simp only [hd]
    cases recommended with
    | none => simp [hnone rfl]
    | some rec =>
        obtain ⟨hne, hfind⟩ := hrec rec rfl
        simp [hne, hfind]

/-- Claim C4 witness: absent amount and negative amount finalize
silently; a positive amount with no effective date fails with the
missing-date error; a positive amount with no matching rate fails with
the no-rate error. -/
theorem finalizeRequest_amended_witness :
    (finalizeRequest [] none
        { requested_amount := none, effective_date := none } 1 1 [] =
      Except.ok []) ∧
    (finalizeRequest [] none
        { requested_amount := some (-3), effective_date := some 4 } 1 1 [] =
      Except.ok []) ∧
    (finalizeRequest [] none
        { requested_amount := some 5, effective_date := none } 1 1 [] =
      Except.error "effective_date is required for finalization") ∧
    (finalizeRequest [] none
        { requested_amount := some 5, effective_date := some 10 } 1 1 [] =
      Except.error ("ไม่พบ Master Rate ที่มียอดเงิน " ++ toString (5 : ℚ))) :=
  ⟨(finalizeRequest_amended [] none
      { requested_amount := none, effective_date := none } 1 1 [] 0 0).1 rfl,
   (finalizeRequest_amended [] none
      { requested_amount := some (-3), effective_date := some 4 } 1 1 []
      (-3) 0).2.1 rfl (by norm_num),
   (finalizeRequest_amended [] none
      { requested_amount := some 5, effective_date := none } 1 1 []
      5 0).2.2.1 rfl (by norm_num) rfl,
   (finalizeRequest_amended [] none
      { requested_amount := some 5, effective_date := some 10 } 1 1 []
      5 10).2.2.2 rfl (by norm_num) rfl
     (fun rec hr => by simp at hr) (fun _ => rfl)⟩

/-- Helper: one day of the loop adds exactly its daily contribution to
the running payment total. -/
theorem dayStep_totalPayment (es : List MonthElig) (licenseOk : ℤ → Bool)
    (ded : ℤ → ℚ) (daysInMonth : ℕ) (acc : MonthlyAcc) (d : ℤ) :
    (dayStep es licenseOk ded daysInMonth acc d).totalPayment =
      acc.totalPayment + dailyContribution es licenseOk ded daysInMonth d :=
  rfl

/-- Helper: folding the day loop over a day list accumulates the sum of
the daily contributions. -/
theorem foldl_dayStep_totalPayment (es : List MonthElig)
    (licenseOk : ℤ → Bool) (ded : ℤ → ℚ) (daysInMonth : ℕ) (l : List ℤ) :
    ∀ acc : MonthlyAcc,
    (l.foldl (dayStep es licenseOk ded daysInMonth) acc).totalPayment =
      acc.totalPayment +
        (l.map (dailyContribution es licenseOk ded daysInMonth)).sum := by
  induction l with
  | nil => intro acc; simp
  | cons d ds ih =>
      intro acc
      rw [List.foldl_cons, ih, List.map_cons, List.sum_cons,
        dayStep_totalPayment]
      ring

/-- Helper: folding over the work periods accumulates the sum over all
days of all periods. -/
theorem foldl_periods_totalPayment (es : List MonthElig)
    (licenseOk : ℤ → Bool) (ded : ℤ → ℚ) (daysInMonth : ℕ)
    (ps : List WorkPeriod) :
    ∀ acc : MonthlyAcc,
    (ps.foldl (fun a p => (dayList p.start p.stop).foldl
        (dayStep es licenseOk ded daysInMonth) a) acc).totalPayment =
      acc.totalPayment + (ps.map (fun p =>
        ((dayList p.start p.stop).map
          (dailyContribution es licenseOk ded daysInMonth)).sum)).sum := by
  induction ps with
  | nil => intro acc; simp
  | cons p ps2 ih =>
      intro acc
      rw [List.foldl_cons, ih, List.map_cons, List.sum_cons,
        foldl_dayStep_totalPayment]
      ring

/-- Claim C9: the monthly calculator accumulates (rate divided by days
in month) times the eligible weight over every day of every work period
in exact rational (non-floating-point) arithmetic, and the returned net
payment is exactly that accumulated total rounded to two decimal places
with half-up rounding; in particular an accumulated 1000.005 yields
1000.01, not 1000.00. -/
theorem calculateMonthlyCore_rounds_half_up (periods : List WorkPeriod)
    (es : List MonthElig) (licenseOk : ℤ → Bool) (ded : ℤ → ℚ)
    (daysInMonth : ℕ) :
    (calculateMonthlyCore periods es licenseOk ded daysInMonth).netPayment =
      roundHalfUp2 ((periods.map (fun p =>
        ((dayList p.start p.stop).map
          (dailyContribution es licenseOk ded daysInMonth)).sum)).sum) ∧
    roundHalfUp2 (200001 / 200) = 100001 / 100 := by
  constructor
  · show roundHalfUp2 ((periods.foldl (fun a p =>
        (dayList p.start p.stop).foldl
          (dayStep es licenseOk ded daysInMonth) a)
        ⟨0, 0, 0, 0, 0, none⟩).totalPayment) = _
    rw [foldl_periods_totalPayment]
    norm_num
  · norm_num [roundHalfUp2]

/-- Helper: invariant of the scan loop of resolveWorkPeriods.  Under
date-sorted movements, and an open start (when present) lying inside
the month and not after any in-month movement, every produced period
lies within the month, the periods are pairwise disjoint and in
ascending order, and every produced start respects any lower bound B
that bounds the remaining movement dates and the open start. -/
theorem scanMonth_spec (monthStart monthEnd : ℤ)
    (hm : monthStart ≤ monthEnd) :
    ∀ (ms : List Movement) (active : Bool) (cs : Option ℤ) (remark : String),
    List.Pairwise (fun m1 m2 =>
      m1.effective_date ≤ m2.effective_date) ms →
    (∀ s, cs = some s → monthStart ≤ s ∧ s ≤ monthEnd ∧
        ∀ m ∈ ms, m.effective_date < monthStart ∨ s ≤ m.effective_date) →
    (∀ p ∈ (scanMonth monthStart monthEnd ms active cs remark).1,
        monthStart ≤ p.start ∧ p.start ≤ monthEnd ∧
        monthStart ≤ p.stop ∧ p.stop ≤ monthEnd) ∧
    List.Pairwise (fun p q => p.stop < q.start ∧ p.start ≤ q.start)
      (scanMonth monthStart monthEnd ms active cs remark).1 ∧
    (∀ B, (∀ m ∈ ms, B ≤ m.effective_date) →
      (∀ s, cs = some s → B ≤ s) →
      ∀ p ∈ (scanMonth monthStart monthEnd ms active cs remark).1,
        B ≤ p.start) := by
  intro ms
  induction ms with
  | nil =>
      intro active cs remark hsort hcs
      cases active with
      | false =>
          have hres : scanMonth monthStart monthEnd [] false cs remark =
              ([], remark) := by
            simp only [scanMonth]
          rw [hres]
          exact ⟨by simp, by simp, by simp⟩
      | true =>
          cases cs with
          | none =>
              have hres : scanMonth monthStart monthEnd [] true none remark =
                  ([], remark) := by
                simp only [scanMonth]
              rw [hres]
              exact ⟨by simp, by simp, by simp⟩
          | some s =>
              have hres : scanMonth monthStart monthEnd [] true (some s)
                  remark = ([⟨s, monthEnd⟩], remark) := by
                simp only [scanMonth]
              rw [hres]
              obtain ⟨hs1, hs2, -⟩ := hcs s rfl
              refine ⟨?_, by simp, ?_⟩
              · intro p hp
                rw [List.mem_singleton] at hp
                subst hp
                exact ⟨hs1, hs2, hm, le_refl _⟩
              · intro B hB hB2 p hp
                rw [List.mem_singleton] at hp
                subst hp
                exact hB2 s rfl
  | cons m rest ih =>
      intro active cs remark hsort hcs
      obtain ⟨hhead, htail⟩ := List.pairwise_cons.mp hsort
      by_cases hout : m.effective_date < monthStart ∨
          m.effective_date > monthEnd
      · have hres : scanMonth monthStart monthEnd (m :: rest) active cs
            remark = scanMonth monthStart monthEnd rest active cs remark := by
          simp only [scanMonth]
          rw [if_pos hout]
        rw [hres]
        have hcs2 : ∀ s, cs = some s → monthStart ≤ s ∧ s ≤ monthEnd ∧
            ∀ m2 ∈ rest, m2.effective_date < monthStart ∨
              s ≤ m2.effective_date := by
          intro s hs
          obtain ⟨h1, h2, h3⟩ := hcs s hs
          exact ⟨h1, h2, fun m2 hm2 => h3 m2 (List.mem_cons_of_mem m hm2)⟩
        obtain ⟨b1, b2, b3⟩ := ih active cs remark htail hcs2
        exact ⟨b1, b2, fun B hB hB2 =>
          b3 B (fun m2 hm2 => hB m2 (List.mem_cons_of_mem m hm2)) hB2⟩
      · push_neg at hout
        obtain ⟨hin1, hin2⟩ := hout
        obtain ⟨meff, mtype⟩ := m
        simp only at hin1 hin2
        have houtfalse : ¬((⟨meff, mtype⟩ : Movement).effective_date <
            monthStart ∨
            (⟨meff, mtype⟩ : Movement).effective_date > monthEnd) := by
          push_neg
          exact ⟨hin1, hin2⟩
        cases mtype with
        | STUDY =>
            have hres : scanMonth monthStart monthEnd
                (⟨meff, MovementType.STUDY⟩ :: rest) active cs remark =
                ([], "ลาศึกษาต่อ") := by
              simp [scanMonth, houtfalse, not_lt.mpr hin1, not_lt.mpr hin2]
            rw [hres]
            exact ⟨by simp, by simp, by simp⟩
        | ENTRY =>
            cases active with
            | false =>
                have hres : scanMonth monthStart monthEnd
                    (⟨meff, MovementType.ENTRY⟩ :: rest) false cs remark =
                    scanMonth monthStart monthEnd rest true (some meff)
                      remark := by
                  simp [scanMonth, houtfalse, not_lt.mpr hin1, not_lt.mpr hin2]
                rw [hres]
                have hcs2 : ∀ s, (some meff : Option ℤ) = some s →
                    monthStart ≤ s ∧ s ≤ monthEnd ∧
                    ∀ m2 ∈ rest, m2.effective_date < monthStart ∨
                      s ≤ m2.effective_date := by
                  intro s hs
                  cases Option.some.inj hs
                  exact ⟨hin1, hin2, fun m2 hm2 => Or.inr (hhead m2 hm2)⟩
                obtain ⟨b1, b2, b3⟩ := ih true (some meff) remark htail hcs2
                refine ⟨b1, b2, ?_⟩
                intro B hB hB2
                refine b3 B (fun m2 hm2 =>
                  hB m2 (List.mem_cons_of_mem _ hm2)) ?_
                intro s hs
                cases Option.some.inj hs
                exact hB ⟨meff, MovementType.ENTRY⟩ (List.mem_cons_self _ _)
            | true =>
                have hres : scanMonth monthStart monthEnd
                    (⟨meff, MovementType.ENTRY⟩ :: rest) true cs remark =
                    scanMonth monthStart monthEnd rest true cs remark := by
                  simp [scanMonth, houtfalse, not_lt.mpr hin1, not_lt.mpr hin2]
                rw [hres]
                have hcs2 : ∀ s, cs = some s → monthStart ≤ s ∧
                    s ≤ monthEnd ∧
                    ∀ m2 ∈ rest, m2.effective_date < monthStart ∨
                      s ≤ m2.effective_date := by
                  intro s hs
                  obtain ⟨h1, h2, h3⟩ := hcs s hs
                  exact ⟨h1, h2, fun m2 hm2 =>
                    h3 m2 (List.mem_cons_of_mem _ hm2)⟩
                obtain ⟨b1, b2, b3⟩ := ih true cs remark htail hcs2
                exact ⟨b1, b2, fun B hB hB2 =>
                  b3 B (fun m2 hm2 =>
                    hB m2 (List.mem_cons_of_mem _ hm2)) hB2⟩
        | OTHER =>
            have hres : scanMonth monthStart monthEnd
                (⟨meff, MovementType.OTHER⟩ :: rest) active cs remark =
                scanMonth monthStart monthEnd rest active cs remark := by
              simp [scanMonth, houtfalse, MovementType.isExit,
                    not_lt.mpr hin1, not_lt.mpr hin2]
            rw [hres]
            have hcs2 : ∀ s, cs = some s → monthStart ≤ s ∧ s ≤ monthEnd ∧
                ∀ m2 ∈ rest, m2.effective_date < monthStart ∨
                  s ≤ m2.effective_date := by
              intro s hs
              obtain ⟨h1, h2, h3⟩ := hcs s hs
              exact ⟨h1, h2, fun m2 hm2 =>
                h3 m2 (List.mem_cons_of_mem _ hm2)⟩
            obtain ⟨b1, b2, b3⟩ := ih active cs remark htail hcs2
            exact ⟨b1, b2, fun B hB hB2 =>
              b3 B (fun m2 hm2 => hB m2 (List.mem_cons_of_mem _ hm2)) hB2⟩
        | RESIGN =>
            obtain ⟨br1, br2, br3⟩ := ih false none remark htail
              (fun s hs => Option.noConfusion hs)
            have hstarts : ∀ p ∈ (scanMonth monthStart monthEnd rest false
                none remark).1, meff ≤ p.start :=
              br3 meff (fun m2 hm2 => hhead m2 hm2)
                (fun s hs => Option.noConfusion hs)
            cases active with
            | false =>
                have hres : scanMonth monthStart monthEnd
                    (⟨meff, MovementType.RESIGN⟩ :: rest) false cs remark =
                    ((scanMonth monthStart monthEnd rest false none
                      remark).1,
                     (scanMonth monthStart monthEnd rest false none
                      remark).2) := by
                  cases cs <;> simp [scanMonth, houtfalse, MovementType.isExit,
                    not_lt.mpr hin1, not_lt.mpr hin2]
                rw [hres]
                exact ⟨br1, br2, fun B hB hB2 p hp =>
                  le_trans (hB ⟨meff, MovementType.RESIGN⟩
                    (List.mem_cons_self _ _)) (hstarts p hp)⟩
            | true =>
                cases cs with
                | none =>
                    have hres : scanMonth monthStart monthEnd
                        (⟨meff, MovementType.RESIGN⟩ :: rest) true none
                        remark =
                        ((scanMonth monthStart monthEnd rest false none
                          remark).1,
                         (scanMonth monthStart monthEnd rest false none
                          remark).2) := by
                      simp [scanMonth, houtfalse, MovementType.isExit,
                    not_lt.mpr hin1, not_lt.mpr hin2]
                    rw [hres]
                    exact ⟨br1, br2, fun B hB hB2 p hp =>
                      le_trans (hB ⟨meff, MovementType.RESIGN⟩
                        (List.mem_cons_self _ _)) (hstarts p hp)⟩
                | some s =>
                    obtain ⟨hs1, hs2, hs3⟩ := hcs s rfl
                    have hsm : s ≤ meff := by
                      rcases hs3 ⟨meff, MovementType.RESIGN⟩
                          (List.mem_cons_self _ _) with hlt | hle
                      · exact absurd hlt (not_lt.mpr hin1)
                      · exact hle
                    have hclip : ¬ (meff - 1 > monthEnd) := by omega
                    by_cases hpe : meff - 1 ≥ monthStart
                    · have hres : scanMonth monthStart monthEnd
                          (⟨meff, MovementType.RESIGN⟩ :: rest) true (some s)
                          remark =
                          (⟨s, meff - 1⟩ ::
                            (scanMonth monthStart monthEnd rest false none
                              remark).1,
                           (scanMonth monthStart monthEnd rest false none
                             remark).2) := by
                        simp [scanMonth, houtfalse, MovementType.isExit,
                          not_lt.mpr hin1, not_lt.mpr hin2, hpe, hclip]
                      rw [hres]
                      refine ⟨?_, ?_, ?_⟩
                      · intro p hp
                        rcases List.mem_cons.mp hp with rfl | hp2
                        · exact ⟨hs1, hs2, hpe,
                            by show meff - 1 ≤ monthEnd; omega⟩
                        · exact br1 p hp2
                      · rw [List.pairwise_cons]
                        refine ⟨?_, br2⟩
                        intro q hq
                        have hq2 := hstarts q hq
                        exact ⟨by show meff - 1 < q.start; omega,
                               by show s ≤ q.start; omega⟩
                      · intro B hB hB2 p hp
                        rcases List.mem_cons.mp hp with rfl | hp2
                        · exact hB2 s rfl
                        · exact le_trans
                            (hB ⟨meff, MovementType.RESIGN⟩
                              (List.mem_cons_self _ _)) (hstarts p hp2)
                    · have hres : scanMonth monthStart monthEnd
                          (⟨meff, MovementType.RESIGN⟩ :: rest) true (some s)
                          remark =
                          ((scanMonth monthStart monthEnd rest false none
                            remark).1,
                           (scanMonth monthStart monthEnd rest false none
                             remark).2) := by
                        simp [scanMonth, houtfalse, MovementType.isExit,
                          not_lt.mpr hin1, not_lt.mpr hin2, hpe]
                      rw [hres]
                      exact ⟨br1, br2, fun B hB hB2 p hp =>
                        le_trans (hB ⟨meff, MovementType.RESIGN⟩
                          (List.mem_cons_self _ _)) (hstarts p hp)⟩
        | RETIRE =>
            obtain ⟨br1, br2, br3⟩ := ih false none remark htail
              (fun s hs => Option.noConfusion hs)
            have hstarts : ∀ p ∈ (scanMonth monthStart monthEnd rest false
                none remark).1, meff ≤ p.start :=
              br3 meff (fun m2 hm2 => hhead m2 hm2)
                (fun s hs => Option.noConfusion hs)
            cases active with
            | false =>
                have hres : scanMonth monthStart monthEnd
                    (⟨meff, MovementType.RETIRE⟩ :: rest) false cs remark =
                    ((scanMonth monthStart monthEnd rest false none
                      remark).1,
                     (scanMonth monthStart monthEnd rest false none
                      remark).2) := by
                  cases cs <;> simp [scanMonth, houtfalse, MovementType.isExit,
                    not_lt.mpr hin1, not_lt.mpr hin2]
                rw [hres]
                exact ⟨br1, br2, fun B hB hB2 p hp =>
                  le_trans (hB ⟨meff, MovementType.RETIRE⟩
                    (List.mem_cons_self _ _)) (hstarts p hp)⟩
            | true =>
                cases cs with
                | none =>
                    have hres : scanMonth monthStart monthEnd
                        (⟨meff, MovementType.RETIRE⟩ :: rest) true none
                        remark =
                        ((scanMonth monthStart monthEnd rest false none
                          remark).1,
                         (scanMonth monthStart monthEnd rest false none
                          remark).2) := by
                      simp [scanMonth, houtfalse, MovementType.isExit,
                    not_lt.mpr hin1, not_lt.mpr hin2]
                    rw [hres]
                    exact ⟨br1, br2, fun B hB hB2 p hp =>
                      le_trans (hB ⟨meff, MovementType.RETIRE⟩
                        (List.mem_cons_self _ _)) (hstarts p hp)⟩
                | some s =>
                    obtain ⟨hs1, hs2, hs3⟩ := hcs s rfl
                    have hsm : s ≤ meff := by
                      rcases hs3 ⟨meff, MovementType.RETIRE⟩
                          (List.mem_cons_self _ _) with hlt | hle
                      · exact absurd hlt (not_lt.mpr hin1)
                      · exact hle
                    have hclip : ¬ (meff - 1 > monthEnd) := by omega
                    by_cases hpe : meff - 1 ≥ monthStart
                    · have hres : scanMonth monthStart monthEnd
                          (⟨meff, MovementType.RETIRE⟩ :: rest) true (some s)
                          remark =
                          (⟨s, meff - 1⟩ ::
                            (scanMonth monthStart monthEnd rest false none
                              remark).1,
                           (scanMonth monthStart monthEnd rest false none
                             remark).2) := by
                        simp [scanMonth, houtfalse, MovementType.isExit,
                          not_lt.mpr hin1, not_lt.mpr hin2, hpe, hclip]
                      rw [hres]
                      refine ⟨?_, ?_, ?_⟩
                      · intro p hp
                        rcases List.mem_cons.mp hp with rfl | hp2
                        · exact ⟨hs1, hs2, hpe,
                            by show meff - 1 ≤ monthEnd; omega⟩
                        · exact br1 p hp2
                      · rw [List.pairwise_cons]
                        refine ⟨?_, br2⟩
                        intro q hq
                        have hq2 := hstarts q hq
                        exact ⟨by show meff - 1 < q.start; omega,
                               by show s ≤ q.start; omega⟩
                      · intro B hB hB2 p hp
                        rcases List.mem_cons.mp hp with rfl | hp2
                        · exact hB2 s rfl
                        · exact le_trans
                            (hB ⟨meff, MovementType.RETIRE⟩
                              (List.mem_cons_self _ _)) (hstarts p hp2)
                    · have hres : scanMonth monthStart monthEnd
                          (⟨meff, MovementType.RETIRE⟩ :: rest) true (some s)
                          remark =
                          ((scanMonth monthStart monthEnd rest false none
                            remark).1,
                           (scanMonth monthStart monthEnd rest false none
                             remark).2) := by
                        simp [scanMonth, houtfalse, MovementType.isExit,
                          not_lt.mpr hin1, not_lt.mpr hin2, hpe]
                      rw [hres]
                      exact ⟨br1, br2, fun B hB hB2 p hp =>
                        le_trans (hB ⟨meff, MovementType.RETIRE⟩
                          (List.mem_cons_self _ _)) (hstarts p hp)⟩
        | DEATH =>
            obtain ⟨br1, br2, br3⟩ := ih false none remark htail
              (fun s hs => Option.noConfusion hs)
            have hstarts : ∀ p ∈ (scanMonth monthStart monthEnd rest false
                none remark).1, meff ≤ p.start :=
              br3 meff (fun m2 hm2 => hhead m2 hm2)
                (fun s hs => Option.noConfusion hs)
            cases active with
            | false =>
                have hres : scanMonth monthStart monthEnd
                    (⟨meff, MovementType.DEATH⟩ :: rest) false cs remark =
                    ((scanMonth monthStart monthEnd rest false none
                      remark).1,
                     (scanMonth monthStart monthEnd rest false none
                      remark).2) := by
                  cases cs <;> simp [scanMonth, houtfalse, MovementType.isExit,
                    not_lt.mpr hin1, not_lt.mpr hin2]
                rw [hres]
                exact ⟨br1, br2, fun B hB hB2 p hp =>
                  le_trans (hB ⟨meff, MovementType.DEATH⟩
                    (List.mem_cons_self _ _)) (hstarts p hp)⟩
            | true =>
                cases cs with
                | none =>
                    have hres : scanMonth monthStart monthEnd
                        (⟨meff, MovementType.DEATH⟩ :: rest) true none
                        remark =
                        ((scanMonth monthStart monthEnd rest false none
                          remark).1,
                         (scanMonth monthStart monthEnd rest false none
                          remark).2) := by
                      simp [scanMonth, houtfalse, MovementType.isExit,
                    not_lt.mpr hin1, not_lt.mpr hin2]
                    rw [hres]
                    exact ⟨br1, br2, fun B hB hB2 p hp =>
                      le_trans (hB ⟨meff, MovementType.DEATH⟩
                        (List.mem_cons_self _ _)) (hstarts p hp)⟩
                | some s =>
                    obtain ⟨hs1, hs2, hs3⟩ := hcs s rfl
                    have hsm : s ≤ meff := by
                      rcases hs3 ⟨meff, MovementType.DEATH⟩
                          (List.mem_cons_self _ _) with hlt | hle
                      · exact absurd hlt (not_lt.mpr hin1)
                      · exact hle
                    have hclip : ¬ (meff - 1 > monthEnd) := by omega
                    by_cases hpe : meff - 1 ≥ monthStart
                    · have hres : scanMonth monthStart monthEnd
                          (⟨meff, MovementType.DEATH⟩ :: rest) true (some s)
                          remark =
                          (⟨s, meff - 1⟩ ::
                            (scanMonth monthStart monthEnd rest false none
                              remark).1,
                           (scanMonth monthStart monthEnd rest false none
                             remark).2) := by
                        simp [scanMonth, houtfalse, MovementType.isExit,
                          not_lt.mpr hin1, not_lt.mpr hin2, hpe, hclip]
                      rw [hres]
                      refine ⟨?_, ?_, ?_⟩
                      · intro p hp
                        rcases List.mem_cons.mp hp with rfl | hp2
                        · exact ⟨hs1, hs2, hpe,
                            by show meff - 1 ≤ monthEnd; omega⟩
                        · exact br1 p hp2
                      · rw [List.pairwise_cons]
                        refine ⟨?_, br2⟩
                        intro q hq
                        have hq2 := hstarts q hq
                        exact ⟨by show meff - 1 < q.start; omega,
                               by show s ≤ q.start; omega⟩
                      · intro B hB hB2 p hp
                        rcases List.mem_cons.mp hp with rfl | hp2
                        · exact hB2 s rfl
                        · exact le_trans
                            (hB ⟨meff, MovementType.DEATH⟩
                              (List.mem_cons_self _ _)) (hstarts p hp2)
                    · have hres : scanMonth monthStart monthEnd
                          (⟨meff, MovementType.DEATH⟩ :: rest) true (some s)
                          remark =
                          ((scanMonth monthStart monthEnd rest false none
                            remark).1,
                           (scanMonth monthStart monthEnd rest false none
                             remark).2) := by
                        simp [scanMonth, houtfalse, MovementType.isExit,
                          not_lt.mpr hin1, not_lt.mpr hin2, hpe]
                      rw [hres]
                      exact ⟨br1, br2, fun B hB hB2 p hp =>
                        le_trans (hB ⟨meff, MovementType.DEATH⟩
                          (List.mem_cons_self _ _)) (hstarts p hp)⟩
        | TRANSFER_OUT =>
            obtain ⟨br1, br2, br3⟩ := ih false none remark htail
              (fun s hs => Option.noConfusion hs)
            have hstarts : ∀ p ∈ (scanMonth monthStart monthEnd rest false
                none remark).1, meff ≤ p.start :=
              br3 meff (fun m2 hm2 => hhead m2 hm2)
                (fun s hs => Option.noConfusion hs)
            cases active with
            | false =>
                have hres : scanMonth monthStart monthEnd
                    (⟨meff, MovementType.TRANSFER_OUT⟩ :: rest) false cs
                    remark =
                    ((scanMonth monthStart monthEnd rest false none
                      remark).1,
                     (scanMonth monthStart monthEnd rest false none
                      remark).2) := by
                  cases cs <;> simp [scanMonth, houtfalse, MovementType.isExit,
                    not_lt.mpr hin1, not_lt.mpr hin2]
                rw [hres]
                exact ⟨br1, br2, fun B hB hB2 p hp =>
                  le_trans (hB ⟨meff, MovementType.TRANSFER_OUT⟩
                    (List.mem_cons_self _ _)) (hstarts p hp)⟩
            | true =>
                cases cs with
                | none =>
                    have hres : scanMonth monthStart monthEnd
                        (⟨meff, MovementType.TRANSFER_OUT⟩ :: rest) true none
                        remark =
                        ((scanMonth monthStart monthEnd rest false none
                          remark).1,
                         (scanMonth monthStart monthEnd rest false none
                          remark).2) := by
                      simp [scanMonth, houtfalse, MovementType.isExit,
                    not_lt.mpr hin1, not_lt.mpr hin2]
                    rw [hres]
                    exact ⟨br1, br2, fun B hB hB2 p hp =>
                      le_trans (hB ⟨meff, MovementType.TRANSFER_OUT⟩
                        (List.mem_cons_self _ _)) (hstarts p hp)⟩
                | some s =>
                    obtain ⟨hs1, hs2, hs3⟩ := hcs s rfl
                    have hsm : s ≤ meff := by
                      rcases hs3 ⟨meff, MovementType.TRANSFER_OUT⟩
                          (List.mem_cons_self _ _) with hlt | hle
                      · exact absurd hlt (not_lt.mpr hin1)
                      · exact hle
                    have hclip : ¬ (meff - 1 > monthEnd) := by omega
                    by_cases hpe : meff - 1 ≥ monthStart
                    · have hres : scanMonth monthStart monthEnd
                          (⟨meff, MovementType.TRANSFER_OUT⟩ :: rest) true
                          (some s) remark =
                          (⟨s, meff - 1⟩ ::
                            (scanMonth monthStart monthEnd rest false none
                              remark).1,
                           (scanMonth monthStart monthEnd rest false none
                             remark).2) := by
                        simp [scanMonth, houtfalse, MovementType.isExit,
                          not_lt.mpr hin1, not_lt.mpr hin2, hpe, hclip]
                      rw [hres]
                      refine ⟨?_, ?_, ?_⟩
                      · intro p hp
                        rcases List.mem_cons.mp hp with rfl | hp2
                        · exact ⟨hs1, hs2, hpe,
                            by show meff - 1 ≤ monthEnd; omega⟩
                        · exact br1 p hp2
                      · rw [List.pairwise_cons]
                        refine ⟨?_, br2⟩
                        intro q hq
                        have hq2 := hstarts q hq
                        exact ⟨by show meff - 1 < q.start; omega,
                               by show s ≤ q.start; omega⟩
                      · intro B hB hB2 p hp
                        rcases List.mem_cons.mp hp with rfl | hp2
                        · exact hB2 s rfl
                        · exact le_trans
                            (hB ⟨meff, MovementType.TRANSFER_OUT⟩
                              (List.mem_cons_self _ _)) (hstarts p hp2)
                    · have hres : scanMonth monthStart monthEnd
                          (⟨meff, MovementType.TRANSFER_OUT⟩ :: rest) true
                          (some s) remark =
                          ((scanMonth monthStart monthEnd rest false none
                            remark).1,
                           (scanMonth monthStart monthEnd rest false none
                             remark).2) := by
                        simp [scanMonth, houtfalse, MovementType.isExit,
                          not_lt.mpr hin1, not_lt.mpr hin2, hpe]
                      rw [hres]
                      exact ⟨br1, br2, fun B hB hB2 p hp =>
                        le_trans (hB ⟨meff, MovementType.TRANSFER_OUT⟩
                          (List.mem_cons_self _ _)) (hstarts p hp)⟩

/-- Claim C8: for every movement list that is sorted by effective date
(the order the SQL query delivers) and every month, the work periods
returned by resolveWorkPeriods are pairwise non-overlapping and sorted
in ascending date order (each period ends strictly before the next one
starts, and starts never decrease), and every period start and end lies
within [monthStart, monthEnd]. -/
theorem resolveWorkPeriods_invariant (movements : List Movement)
    (monthStart monthEnd : ℤ) (hm : monthStart ≤ monthEnd)
    (hsorted : List.Pairwise (fun m1 m2 =>
        m1.effective_date ≤ m2.effective_date) movements) :
    (∀ p ∈ (resolveWorkPeriods movements monthStart monthEnd).1,
        monthStart ≤ p.start ∧ p.start ≤ monthEnd ∧
        monthStart ≤ p.stop ∧ p.stop ≤ monthEnd) ∧
    List.Pairwise (fun p q => p.stop < q.start ∧ p.start ≤ q.start)
      (resolveWorkPeriods movements monthStart monthEnd).1 := by
  simp only [resolveWorkPeriods]
  split
  · refine ⟨?_, by simp⟩
    intro p hp
    rw [List.mem_singleton] at hp
    subst hp
    exact ⟨le_refl _, hm, hm, le_refl _⟩
  · refine ⟨(scanMonth_spec monthStart monthEnd hm _ _ _ _
        (hsorted.filter _) ?hcs).1,
      (scanMonth_spec monthStart monthEnd hm _ _ _ _
        (hsorted.filter _) ?hcs2).2.1⟩
    case hcs =>
      intro s hs
      split at hs
      · cases Option.some.inj hs
        exact ⟨le_refl _, hm, fun m2 _ => lt_or_le m2.effective_date monthStart⟩
      · exact Option.noConfusion hs
    case hcs2 =>
      intro s hs
      split at hs
      · cases Option.some.inj hs
        exact ⟨le_refl _, hm, fun m2 _ => lt_or_le m2.effective_date monthStart⟩
      · exact Option.noConfusion hs

/-- Claim C8 witness: an entry before the month, a mid-month
resignation and a re-entry, for the month [1, 30]; the resolved periods
satisfy the bounds and ordering invariant. -/
theorem resolveWorkPeriods_invariant_witness :
    (∀ p ∈ (resolveWorkPeriods
        [⟨-5, MovementType.ENTRY⟩, ⟨10, MovementType.RESIGN⟩,
         ⟨20, MovementType.ENTRY⟩] 1 30).1,
        (1 : ℤ) ≤ p.start ∧ p.start ≤ 30 ∧
        (1 : ℤ) ≤ p.stop ∧ p.stop ≤ 30) ∧
    List.Pairwise (fun p q => p.stop < q.start ∧ p.start ≤ q.start)
      (resolveWorkPeriods
        [⟨-5, MovementType.ENTRY⟩, ⟨10, MovementType.RESIGN⟩,
         ⟨20, MovementType.ENTRY⟩] 1 30).1 :=
  resolveWorkPeriods_invariant
    [⟨-5, MovementType.ENTRY⟩, ⟨10, MovementType.RESIGN⟩,
     ⟨20, MovementType.ENTRY⟩] 1 30 (by decide) (by decide)

end PHTS
